import Mathlib

/-!
Verification of the lease-based task coordination engine of this repository
(`hooks/harness-claim.py`, `hooks/harness-renew.py`, `hooks/harness-stop.py`).

The Python code manipulates JSON documents (Python dicts/lists/strings/ints
parsed from `harness-tasks.json`).  We embed the JSON value domain as an
inductive type `Json`, Python dict objects as association lists `Obj` with
unique keys in insertion order, and the relevant fragment of Python's value
coercions (`str()`, `int()`, truthiness) as executable functions.

Modelling notes (stated once here, referenced below):
 -  JSON numbers are modelled as integers (`Int`); the engine only ever
    reads and writes integral counters (`attempts`, `max_attempts`,
    `session_count`) and never produces fractional numbers.
 -  Timestamps are modelled as whole seconds since the Unix epoch (`Int`).
    `datetime.fromisoformat` is modelled on the sub-grammar
    `YYYY-MM-DD[(T| )HH[:MM[:SS[.frac]]]][±HH:MM]` (fraction parsed and
    discarded), which covers everything the engine itself writes via
    `_iso_z` (always `YYYY-MM-DDTHH:MM:SSZ`, `Z` rewritten to `+00:00`
    before parsing, exactly as `_parse_iso` does).
 -  Python `str()` of a list/dict is modelled without string-escaping
    inside `repr` (no claim below depends on it).
-/

/-- A JSON value as produced by `json.load`.  Python dicts keep insertion
order and unique keys, so objects are association lists. -/
inductive Json where
  | null : Json
  | bool : Bool → Json
  | num : Int → Json
  | str : String → Json
  | arr : List Json → Json
  | obj : List (String × Json) → Json

/-- A parsed Python dict: keys in insertion order. -/
abbrev Obj := List (String × Json)

/-- Python `d.get(k)`: the value bound to the first (only) occurrence of `k`. -/
def getField : Obj → String → Option Json
  | [], _ => none
  | (k0, v) :: rest, k => if k0 = k then some v else getField rest k

/-- Python `d[k] = v`: replace in place if the key exists, else append. -/
def setField : Obj → String → Json → Obj
  | [], k, v => [(k, v)]
  | (k0, v0) :: rest, k, v =>
      if k0 = k then (k, v) :: rest else (k0, v0) :: setField rest k v

/-- Python `d.pop(k, None)`: remove the binding of `k` (keys are unique). -/
def popField : Obj → String → Obj
  | [], _ => []
  | (k0, v) :: rest, k =>
      if k0 = k then popField rest k else (k0, v) :: popField rest k

/-- Python truthiness of a JSON value (`bool(v)`). -/
def pyTruthy : Json → Bool
  | .null => false
  | .bool b => b
  | .num n => n != 0
  | .str s => s ≠ ""
  | .arr l => !l.isEmpty
  | .obj o => !o.isEmpty

mutual

/-- Python `repr()` restricted to JSON values (string escaping not modelled). -/
def pyRepr : Json → String
  | .null => "None"
  | .bool b => if b then "True" else "False"
  | .num n => toString n
  | .str s => "\x27" ++ s ++ "\x27"
  | .arr l => "[" ++ pyReprItems l ++ "]"
  | .obj o => "\x7b" ++ pyReprFields o ++ "\x7d"

def pyReprItems : List Json → String
  | [] => ""
  | [x] => pyRepr x
  | x :: xs => pyRepr x ++ ", " ++ pyReprItems xs

def pyReprFields : List (String × Json) → String
  | [] => ""
  | [(k, v)] => "\x27" ++ k ++ "\x27: " ++ pyRepr v
  | (k, v) :: xs => "\x27" ++ k ++ "\x27: " ++ pyRepr v ++ ", " ++ pyReprFields xs

end

/-- Python `str()` of a JSON value. -/
def pyStr : Json → String
  | .str s => s
  | v => pyRepr v

/-- Python `int()` of a JSON value; `none` models a raised exception.
Strings are parsed as optionally signed decimal with surrounding blanks
(the underscore digit separator is not modelled). -/
def pyIntOfChars : List Char → Option Int
  | [] => none
  | cs => cs.foldl (fun acc c =>
      match acc with
      | none => none
      | some n => if c.isDigit then some (n * 10 + (c.toNat - 48 : Int)) else none)
      (some 0)

/-- Python `str.strip()` at the character level (`String.trim` is
well-founded-recursive and therefore opaque to kernel evaluation; this
structural version computes the same ASCII-whitespace trim). -/
def trimChars (cs : List Char) : List Char :=
  ((cs.dropWhile Char.isWhitespace).reverse.dropWhile Char.isWhitespace).reverse

def pyIntOfString (s : String) : Option Int :=
  let cs := trimChars s.data
  match cs with
  | '-' :: rest => (pyIntOfChars rest).map (fun n => -n)
  | '+' :: rest => pyIntOfChars rest
  | rest => pyIntOfChars rest

def pyInt : Json → Option Int
  | .num n => some n
  | .bool b => some (if b then 1 else 0)
  | .str s => pyIntOfString s
  | _ => none

/-- Python `str(d.get(k, ""))`: `str()` of the value, `""` when absent. -/
def strGetD (t : Obj) (k : String) : String :=
  match getField t k with
  | none => ""
  | some v => pyStr v

/-- Python `str(d.get(k) or dflt)`: the default also replaces falsy values. -/
def strGetOr (t : Obj) (k : String) (dflt : String) : String :=
  match getField t k with
  | none => dflt
  | some v => if pyTruthy v then pyStr v else dflt

/-! ## Civil-time arithmetic (UTC, second precision)

`_iso_z` and `_parse_iso` convert between `YYYY-MM-DDTHH:MM:SSZ` strings and
instants.  Instants are seconds since the Unix epoch. -/

/-- Days since 1970-01-01 from a civil date (Howard Hinnant's algorithm,
as computed by Python's `datetime` arithmetic). -/
def daysFromCivil (y m d : Int) : Int :=
  let y1 := y - (if m ≤ 2 then 1 else 0)
  let era := Int.fdiv y1 400
  let yoe := y1 - era * 400
  let mp := m + (if m > 2 then -3 else 9)
  let doy := Int.fdiv (153 * mp + 2) 5 + d - 1
  let doe := yoe * 365 + Int.fdiv yoe 4 - Int.fdiv yoe 100 + doy
  era * 146097 + doe - 719468

/-- Civil date from days since 1970-01-01 (inverse of `daysFromCivil`). -/
def civilFromDays (z0 : Int) : Int × Int × Int :=
  let z := z0 + 719468
  let era := Int.fdiv z 146097
  let doe := z - era * 146097
  let yoe := Int.fdiv (doe - Int.fdiv doe 1460 + Int.fdiv doe 36524 - Int.fdiv doe 146096) 365
  let y := yoe + era * 400
  let doy := doe - (365 * yoe + Int.fdiv yoe 4 - Int.fdiv yoe 100)
  let mp := Int.fdiv (5 * doy + 2) 153
  let d := doy - Int.fdiv (153 * mp + 2) 5 + 1
  let m := mp + (if mp < 10 then 3 else -9)
  (y + (if m ≤ 2 then 1 else 0), m, d)

def isLeapYear (y : Int) : Bool :=
  (Int.fmod y 4 = 0 && Int.fmod y 100 ≠ 0) || Int.fmod y 400 = 0

def daysInMonth (y m : Int) : Int :=
  if m = 2 then (if isLeapYear y then 29 else 28)
  else if m = 4 || m = 6 || m = 9 || m = 11 then 30
  else 31

def pad2 (n : Int) : String :=
  if n < 10 then "0" ++ toString n else toString n

def pad4 (n : Int) : String :=
  if n < 10 then "000" ++ toString n
  else if n < 100 then "00" ++ toString n
  else if n < 1000 then "0" ++ toString n
  else toString n

/-- `_iso_z`: render an instant as `YYYY-MM-DDTHH:MM:SSZ`
(UTC, microseconds dropped — instants are whole seconds here). -/
def iso_z (t : Int) : String :=
  let days := Int.fdiv t 86400
  let sod := t - days * 86400
  let c := civilFromDays days
  pad4 c.1 ++ "-" ++ pad2 c.2.1 ++ "-" ++ pad2 c.2.2 ++ "T" ++
    pad2 (Int.fdiv sod 3600) ++ ":" ++ pad2 (Int.fdiv (Int.fmod sod 3600) 60) ++ ":" ++
    pad2 (Int.fmod sod 60) ++ "Z"

/-- Read exactly `n` decimal digits. -/
def readDigits : Nat → List Char → Option (Int × List Char)
  | 0, cs => some (0, cs)
  | n + 1, c :: cs =>
      if c.isDigit then
        (readDigits n cs).bind (fun p =>
          some ((c.toNat - 48 : Int) * (10 : Int) ^ n + p.1, p.2))
      else none
  | _ + 1, [] => none

/-- Skip one or more digits (a fractional-seconds field, value discarded). -/
def skipDigits1 : List Char → Option (List Char)
  | c :: cs => if c.isDigit then some (skipDigitsRest cs) else none
  | [] => none
where skipDigitsRest : List Char → List Char
  | c :: cs => if c.isDigit then skipDigitsRest cs else c :: cs
  | [] => []

/-- Parse the optional UTC-offset suffix `±HH:MM`; returns offset seconds. -/
def parseOffset : List Char → Option Int
  | [] => some 0
  | sign :: cs =>
      if sign = '+' ∨ sign = '-' then
        match readDigits 2 cs with
        | some (oh, ':' :: cs2) =>
            match readDigits 2 cs2 with
            | some (om, []) =>
                if oh ≤ 23 ∧ om ≤ 59 then
                  some ((if sign = '-' then -1 else 1) * (oh * 3600 + om * 60))
                else none
            | _ => none
        | _ => none
      else none

/-- Parse the time-of-day part `HH[:MM[:SS[.frac]]]` plus optional offset;
returns seconds-of-day minus the offset (i.e. the UTC adjustment). -/
def parseTimePart (cs : List Char) : Option Int :=
  match readDigits 2 cs with
  | none => none
  | some (hh, rest) =>
      if hh > 23 then none else
      match rest with
      | ':' :: cs2 =>
          match readDigits 2 cs2 with
          | none => none
          | some (mm, rest2) =>
              if mm > 59 then none else
              match rest2 with
              | ':' :: cs3 =>
                  match readDigits 2 cs3 with
                  | none => none
                  | some (ss, rest3) =>
                      if ss > 59 then none else
                      let afterFrac : Option (List Char) :=
                        match rest3 with
                        | '.' :: cs4 => skipDigits1 cs4
                        | ',' :: cs4 => skipDigits1 cs4
                        | other => some other
                      match afterFrac with
                      | none => none
                      | some rest4 =>
                          (parseOffset rest4).map
                            (fun off => hh * 3600 + mm * 60 + ss - off)
              | other =>
                  (parseOffset other).map (fun off => hh * 3600 + mm * 60 - off)
      | other => (parseOffset other).map (fun off => hh * 3600 - off)

/-- Modelled from `datetime.fromisoformat` on the sub-grammar
`YYYY-MM-DD[(T| )time]`; a naive result is treated as UTC (as `_parse_iso`
does via `replace(tzinfo=utc)`).  Returns seconds since the epoch. -/
def fromIso (cs0 : List Char) : Option Int :=
  match readDigits 4 cs0 with
  | some (y, '-' :: cs1) =>
      (match readDigits 2 cs1 with
       | some (m, '-' :: cs2) =>
           (match readDigits 2 cs2 with
            | some (d, rest) =>
                if 1 ≤ m ∧ m ≤ 12 ∧ 1 ≤ d ∧ d ≤ daysInMonth y m then
                  let base := daysFromCivil y m d * 86400
                  match rest with
                  | [] => some base
                  | sep :: cs3 =>
                      if sep = 'T' ∨ sep = ' ' then
                        (parseTimePart cs3).map (fun t => base + t)
                      else none
                else none
            | _ => none)
       | _ => none)
  | _ => none

/-- `_parse_iso`: `None` unless the value is a non-blank string; a trailing
`Z` (`s.endswith("Z")` on the stripped string) is rewritten to `+00:00`
before parsing. -/
def parse_iso : Json → Option Int
  | .str s0 =>
      match (trimChars s0.data).reverse with
      | [] => none
      | last :: front =>
          if last = 'Z' then
            fromIso (front.reverse ++ ['+', '0', '0', ':', '0', '0'])
          else fromIso (front.reverse ++ [last])
  | _ => none

/-! ## Task Model & Eligibility Engine (`_eligible_tasks`, `_priority_rank`,
`_deps_completed`, `_attempts`, `_max_attempts`, `_pick_next`) -/

/-- `isinstance(t, dict)` filter used on every load of the tasks array. -/
def asObj : Json → Option Obj
  | .obj o => some o
  | _ => none

def isObjJson : Json → Bool
  | .obj _ => true
  | _ => false

/-- `_priority_rank`: P0=0, P1=1, P2=2, anything else (or falsy) = 9. -/
def priority_rank (v : Option Json) : Nat :=
  let s := match v with
    | none => ""
    | some j => if pyTruthy j then pyStr j else ""
  if s = "P0" then 0 else if s = "P1" then 1 else if s = "P2" then 2 else 9

/-- The sort key used by `_eligible_tasks` and `_pick_next`:
(priority rank, id) compared lexicographically. -/
def sortKey (t : Obj) : Nat × String :=
  (priority_rank (getField t "priority"), strGetD t "id")

/-- Boolean total preorder on tasks: Python tuple comparison of sort keys. -/
def keyLE (t u : Obj) : Bool :=
  (sortKey t).1 < (sortKey u).1 ||
    ((sortKey t).1 = (sortKey u).1 && decide ((sortKey t).2 ≤ (sortKey u).2))

/-- `keyLE` as a relation, for `List.insertionSort`. -/
def rKey : Obj → Obj → Prop := fun t u => keyLE t u = true

instance : DecidableRel rKey := fun t u =>
  inferInstanceAs (Decidable (keyLE t u = true))

/-- Python's `list.sort(key=...)` is a stable sort; any two stable sorts of
the same list under the same total preorder agree, so `insertionSort`
(stable) computes exactly the list Python produces. -/
def sortTasks (l : List Obj) : List Obj := List.insertionSort rKey l

/-- `completed = {str(t.get("id", "")) for t in tasks if str(t.get("status", "")) == "completed"}`
(a set: only membership and cardinality are ever used). -/
def completedIds (ts : List Obj) : List String :=
  ts.filterMap (fun t =>
    if strGetD t "status" = "completed" then some (strGetD t "id") else none)

/-- `deps_ok` / `_deps_completed`: `t.get("depends_on") or []` must be a
list all of whose members stringify into the completed set. -/
def deps_completed (comp : List String) (t : Obj) : Bool :=
  let deps : Json := match getField t "depends_on" with
    | none => .arr []
    | some v => if pyTruthy v then v else .arr []
  match deps with
  | .arr ds => ds.all (fun d => comp.contains (pyStr d))
  | _ => false

/-- `_attempts` / the `attempts` closure: `int(t.get("attempts") or 0)`,
any exception yielding 0. -/
def attemptsOf (t : Obj) : Int :=
  match getField t "attempts" with
  | none => 0
  | some v => if pyTruthy v then (pyInt v).getD 0 else 0

/-- `_max_attempts`: `int(v) if v is not None else 3`, any exception
yielding 3. -/
def max_attempts (t : Obj) : Int :=
  match getField t "max_attempts" with
  | none => 3
  | some .null => 3
  | some v => (pyInt v).getD 3

/-- The `pending` filter of `_eligible_tasks` (document order). -/
def pending_eligible (ts : List Obj) : List Obj :=
  ts.filter (fun t =>
    strGetD t "status" = "pending" && deps_completed (completedIds ts) t)

/-- The `retry` filter of `_eligible_tasks` (document order). -/
def retryable (ts : List Obj) : List Obj :=
  ts.filter (fun t =>
    strGetD t "status" = "failed" &&
      decide (attemptsOf t < max_attempts t) &&
      deps_completed (completedIds ts) t)

/-- `_eligible_tasks`: both filters, each sorted by `(rank, id)`. -/
def eligible_tasks (ts : List Obj) : List Obj × List Obj :=
  (sortTasks (pending_eligible ts), sortTasks (retryable ts))

/-- `_pick_next` / the selection in `harness-claim.py` line 266:
`pending[0] if pending else (retry[0] if retry else None)`. -/
def nextTask (ts : List Obj) : Option Obj :=
  match (eligible_tasks ts).1.head? with
  | some t => some t
  | none => (eligible_tasks ts).2.head?

/-! ## Reap (`_reap_stale_leases`) -/

/-- The guard of the reap loop body: status `in_progress` and a lease that
parses to an instant not after `now` (`exp is None or exp > now` skips). -/
def reapable (now : Int) (t : Obj) : Bool :=
  strGetD t "status" = "in_progress" &&
    match parse_iso ((getField t "lease_expires_at").getD .null) with
    | none => false
    | some e => decide (e ≤ now)

/-- The new `attempts` value: `int(t.get("attempts") or 0) + 1`, or 1 if
that raised. -/
def newAttempts (t : Obj) : Int :=
  match getField t "attempts" with
  | none => 1
  | some v =>
      if pyTruthy v then
        match pyInt v with
        | some n => n + 1
        | none => 1
      else 1

/-- One iteration of the `_reap_stale_leases` loop body on task `t`. -/
def reapTask (now : Int) (t : Obj) : Obj :=
  if reapable now t then
    let t1 := setField t "attempts" (.num (newAttempts t))
    let err := "[SESSION_TIMEOUT] Lease expired (claimed_by=" ++
      (match getField t "claimed_by" with
       | none => "None"
       | some v => pyStr v) ++ ")"
    let t2 := match getField t1 "error_log" with
      | some (.arr l) => setField t1 "error_log" (.arr (l ++ [.str err]))
      | _ => setField t1 "error_log" (.arr [.str err])
    let t3 := setField t2 "status" (.str "failed")
    popField (popField (popField t3 "claimed_by") "lease_expires_at") "claimed_at"
  else t

/-- `_reap_stale_leases` over the whole (already dict-filtered) task list. -/
def reapTasks (now : Int) (ts : List Obj) : List Obj :=
  ts.map (reapTask now)

/-- The `changed` flag `_reap_stale_leases` returns: true iff some task
entered the mutation branch. -/
def reapChanged (now : Int) (ts : List Obj) : Bool :=
  ts.any (reapable now)

/-! ## Document-level helpers shared by Claim, Renew and the Gate -/

/-- `state.get("tasks") or []`, then the `isinstance(..., list)` check:
`some raw` when the loop may proceed, `none` when the code raises
`tasks must be a list`. -/
def tasksArr (st : Obj) : Option (List Json) :=
  let v : Json := match getField st "tasks" with
    | none => .arr []
    | some w => if pyTruthy w then w else .arr []
  match v with
  | .arr raw => some raw
  | _ => none

/-- `session_config = state.get("session_config") or {}` plus the
`isinstance(..., dict)` repair. -/
def sessionConfig (st : Obj) : Obj :=
  let v : Json := match getField st "session_config" with
    | none => .obj []
    | some w => if pyTruthy w then w else .obj []
  match v with
  | .obj o => o
  | _ => []

/-- `str(session_config.get("concurrency_mode") or "exclusive") == "concurrent"`. -/
def isConcurrent (st : Obj) : Bool :=
  strGetOr (sessionConfig st) "concurrency_mode" "exclusive" = "concurrent"

/-! ## Renew (`harness-renew.py` `main`)

The lock acquisition, state-root discovery and JSON file I/O are the
environment; the function below is `main` from the payload checks onward,
over the parsed document.  Every error is caught in the source and printed
as `{"renewed": False, "error": ...}`; it never writes on an error path. -/

inductive RenewRes where
  | renewed (taskId leaseExp : String)
  | err (msg : String)
  deriving DecidableEq

/-- The in-place mutation Renew applies to the found task
(`task["lease_expires_at"] = ...; task["claimed_by"] = worker_id`). -/
def renewMut (t : Obj) (workerId : String) (leaseSeconds now : Int) : Obj :=
  setField (setField t "lease_expires_at" (.str (iso_z (now + leaseSeconds))))
    "claimed_by" (.str workerId)

/-- `harness-renew.py` `main`, returning the documents persisted (in order)
and the printed result. -/
def renew_main (state : Json) (taskId workerId : String)
    (leaseSeconds now : Int) : List Json × RenewRes :=
  if taskId = "" then ([], .err "missing task_id")
  else if workerId = "" then ([], .err "missing HARNESS_WORKER_ID")
  else match state with
  | .obj st =>
      (match tasksArr st with
      | none => ([], .err "tasks must be a list")
      | some raw =>
          let tasks := raw.filterMap asObj
          match tasks.enum.find? (fun p => strGetOr p.2 "id" "" = taskId) with
          | none => ([], .err "task not found")
          | some (i, t) =>
              if strGetOr t "status" "" ≠ "in_progress" then
                ([], .err "task not in_progress")
              else
                let cb := strGetOr t "claimed_by" ""
                if cb ≠ "" ∧ cb ≠ workerId then
                  ([], .err "task owned by other worker")
                else
                  let t2 := renewMut t workerId leaseSeconds now
                  let ts2 := tasks.set i t2
                  ([.obj (setField st "tasks" (.arr (ts2.map Json.obj)))],
                    .renewed taskId (iso_z (now + leaseSeconds))))
  | _ => ([], .err "harness-tasks.json must be an object")

/-! ## Claim (`harness-claim.py` `main`)

Modelled from the lock acquisition onward over the parsed document.
`workerEnv` is `os.environ.get("HARNESS_WORKER_ID") or ""`; `hostFallback`
is the synthesized `hostname:pid` identity.  Uncaught exceptions
(`_load_state` / the `tasks must be a list` raise) are `Except.error`. -/

inductive ClaimRes where
  | notClaimed
  | missingWorker
  | claimed (workerId taskId title leaseExp : String)
  deriving DecidableEq

/-- The in-place mutation Claim applies to the selected task. -/
def claimMut (t : Obj) (workerId : String) (now exp : Int) : Obj :=
  setField (setField (setField (setField t
    "status" (.str "in_progress"))
    "claimed_by" (.str workerId))
    "claimed_at" (.str (iso_z now)))
    "lease_expires_at" (.str (iso_z exp))

/-- The selected element of the sorted eligibility lists together with its
index in the (dict-filtered, reaped) task list: Python sorts a list of
references and mutates `pending[0]` in place, which is exactly the
first-indexed minimal-key element of the corresponding filter (sorting the
enumerated list with the same stable sort and a key ignoring the index). -/
def pickIdx (ts : List Obj) : Option (Nat × Obj) :=
  let r : Nat × Obj → Nat × Obj → Prop := fun p q => keyLE p.2 q.2 = true
  have : DecidableRel r := fun p q =>
    inferInstanceAs (Decidable (keyLE p.2 q.2 = true))
  let pend := List.insertionSort r (ts.enum.filter (fun p =>
    strGetD p.2 "status" = "pending" && deps_completed (completedIds ts) p.2))
  let retry := List.insertionSort r (ts.enum.filter (fun p =>
    strGetD p.2 "status" = "failed" &&
      decide (attemptsOf p.2 < max_attempts p.2) &&
      deps_completed (completedIds ts) p.2))
  match pend.head? with
  | some p => some p
  | none => retry.head?

/-- `harness-claim.py` `main`, returning the documents persisted (in order)
and the printed result. -/
def claim_main (state : Json) (workerEnv hostFallback : String)
    (leaseSeconds now : Int) : Except String (List Json × ClaimRes) :=
  match state with
  | .obj st =>
      match tasksArr st with
      | none => .error "tasks must be a list"
      | some raw =>
          let tasks := raw.filterMap asObj
          let reaped := reapTasks now tasks
          let w1 : List Json :=
            if reapChanged now tasks then
              [.obj (setField st "tasks" (.arr (reaped.map Json.obj)))]
            else []
          match pickIdx reaped with
          | none => .ok (w1, .notClaimed)
          | some (i, t) =>
              if isConcurrent st ∧ workerEnv = "" then
                .ok (w1, .missingWorker)
              else
                let workerId := if workerEnv = "" then hostFallback else workerEnv
                let exp := now + leaseSeconds
                let t2 := claimMut t workerId now exp
                let ts2 := reaped.set i t2
                .ok (w1 ++ [.obj (setField st "tasks" (.arr (ts2.map Json.obj)))],
                  .claimed workerId (strGetOr t2 "id" "") (strGetOr t2 "title" "")
                    (iso_z exp))
  | _ => .error "harness-tasks.json must be an object"

/-! ## Continuation Gate (`harness-stop.py` `main`)

Modelled from the active-marker guard onward.  The filesystem around the
decision is explicit: the `.harness-active` marker, the
`.harness-stop-counter` file (modelled as its parsed
`(consecutiveBlocks, lastCompletedCount, firstBlockTimestamp)` triple —
the comma-separated serialization of `_write_block_counter` /
`_read_block_counter` is not itself modelled), and the list of documents
written to `harness-tasks.json` (the source contains no such write).
`stopTimeout` is the already-parsed result of `_stop_timeout_seconds`;
`nowPayload` is `float(payload.get("now_unix_ts") or 0)` (0 when absent)
and `nowClock` is `time.time()`.  The session-limit code (lines 224-254)
computes values and discards them (`pass`), so it is omitted.  The
`sys.stderr` warnings and the exact exception text interpolated into the
corrupt-state reason are not modelled (`stateJson = none` stands for an
unreadable file; its reason text uses a fixed placeholder). -/

structure GateIn where
  stopHookActive : Bool
  activePresent : Bool
  stateJson : Option Json
  workerEnv : String
  stopTimeout : Option Int
  nowPayload : Int
  nowClock : Int
  counterFile : Option (Int × Int × Option Int)

inductive GateDecision where
  | allow
  | block (reason : String)
  deriving DecidableEq

structure GateOut where
  decision : GateDecision
  counterAfter : Option (Int × Int × Option Int)
  activeAfter : Bool
  stateWrites : List Json

/-- `_read_block_counter`: `(0, 0, None)` when the file is absent. -/
def readCounter : Option (Int × Int × Option Int) → Int × Int × Option Int
  | none => (0, 0, none)
  | some c => c

/-- The corrupt-state reason string (exception text replaced by a
placeholder, see the section comment). -/
def corruptReason (e : String) : String :=
  "HARNESS: 检测到配置损坏，无法解析 harness-tasks.json。\n" ++
  "HARNESS: error=" ++ e ++ "\n" ++
  "按 SKILL.md 的 JSON corruption 恢复：优先用 harness-tasks.json.bak 还原；无法还原则停止并要求人工修复。"

/-- `counts` and its `sorted(counts.items())` rendering in the summary. -/
def statusCounts (ts : List Obj) : List (String × Nat) :=
  let statuses := ts.map (fun t => strGetOr t "status" "pending")
  let uniq := statuses.eraseDups
  (List.insertionSort (fun a b => a ≤ b) uniq).map
    (fun s => (s, statuses.count s))

/-- `str.strip()` on a whole string. -/
def pyStrip (s : String) : String := String.mk (trimChars s.data)

/-- The `next=` hint naming the task `_pick_next` selects. -/
def nextHint (pend retry : List Obj) : String :=
  match (match (sortTasks pend).head? with
         | some t => some t
         | none => (sortTasks retry).head?) with
  | none => ""
  | some t =>
      let tid := strGetOr t "id" ""
      let title := pyStrip (strGetOr t "title" "")
      "next=" ++ tid ++ (if title ≠ "" then ": " ++ title else "")

/-- The block reason built at lines 326-339. -/
def blockReason (ts pend retry : List Obj) : String :=
  let hint := nextHint pend retry
  let summary := ("HARNESS: 未满足停止条件，继续执行。\n" ++ "HARNESS: " ++
    String.intercalate " " ((statusCounts ts).map
      (fun p => p.1 ++ "=" ++ toString p.2)) ++
    " total=" ++ toString ts.length ++
    (if hint ≠ "" then " " ++ hint else ""))
  pyStrip summary ++ "\n" ++
    "请按 SKILL.md 的 Task Selection Algorithm 选择下一个 eligible 任务，并完整执行 Task Execution Cycle：" ++
    "Claim → Checkpoint → Validate → Record outcome → STATS（如需）→ Continue。"

/-- The in-progress tasks that block for this caller (lines 272-279). -/
def in_progress_blocking (st : Obj) (workerEnv : String) (ts : List Obj) :
    List Obj :=
  let ipAny := ts.filter (fun t => strGetD t "status" = "in_progress")
  if isConcurrent st ∧ workerEnv ≠ "" then
    ipAny.filter (fun t =>
      strGetOr t "claimed_by" "" = workerEnv ||
        !(match getField t "claimed_by" with
          | none => false
          | some v => pyTruthy v))
  else ipAny

/-- `harness-stop.py` `main` from the active-marker guard onward. -/
def gate_main (g : GateIn) : GateOut :=
  if !g.activePresent then
    ⟨.allow, g.counterFile, g.activePresent, []⟩
  else
    let corrupt : String → GateOut := fun e =>
      if g.stopHookActive then ⟨.allow, g.counterFile, true, []⟩
      else ⟨.block (corruptReason e), g.counterFile, true, []⟩
    match g.stateJson with
    | none => corrupt "invalid JSON"
    | some j =>
        match j with
        | .obj st =>
            match tasksArr st with
            | none => corrupt "tasks must be a list"
            | some raw =>
                let tasks := raw.filterMap asObj
                let comp := completedIds tasks
                let completedCount := comp.eraseDups.length
                let pend := pending_eligible tasks
                let retry := retryable tasks
                let blocking := in_progress_blocking st g.workerEnv tasks
                if pend.isEmpty && retry.isEmpty && blocking.isEmpty then
                  ⟨.allow, none, false, []⟩
                else
                  let nowv := if g.nowPayload ≠ 0 then g.nowPayload else g.nowClock
                  let c := readCounter g.counterFile
                  let pb := if completedCount > c.2.1 then 0 else c.1
                  let pft := if completedCount > c.2.1 then none else c.2.2
                  let firstTs : Option Int :=
                    match pft with
                    | some v => some v
                    | none => if nowv ≠ 0 then some nowv else none
                  let counterW := some (pb + 1, (completedCount : Int), firstTs)
                  let timedOut : Bool :=
                    g.stopHookActive &&
                      match g.stopTimeout, firstTs with
                      | some ts0, some ft => nowv ≠ 0 && decide (nowv - ft ≥ ts0)
                      | _, _ => false
                  if timedOut then ⟨.allow, none, true, []⟩
                  else ⟨.block (blockReason tasks pend retry), counterW, true, []⟩
        | _ => corrupt "harness-tasks.json must be a JSON object"

/-! ## State Store `save` (`_atomic_write_json`)

Filesystem state is the triple of the document file, its `.bak` sibling
and the `.tmp` sibling.  `shutil.copy2` is the only step given an explicit
failure switch (`copyOk`): the source does not wrap it in `try`, so its
exception propagates and nothing further runs (failures of the later
steps would likewise propagate, but no claim concerns them).  `.ok` is a
completed save; `.error` carries the filesystem state at the raise. -/

structure FS where
  orig : Option String
  bak : Option String
  tmp : Option String
  deriving DecidableEq

def atomic_write_json (copyOk : Bool) (fs : FS) (content : String) :
    Except FS FS :=
  if copyOk then
    let fs1 : FS := { fs with bak := fs.orig }
    let fs2 : FS := { fs1 with tmp := some content }
    .ok { fs2 with orig := some content, tmp := none }
  else .error fs

/-- The successive filesystem states a completed save passes through
(initial, after `copy2`, after `write_text`, after `os.replace`). -/
def atomic_write_states (copyOk : Bool) (fs : FS) (content : String) :
    List FS :=
  if copyOk then
    let fs1 : FS := { fs with bak := fs.orig }
    let fs2 : FS := { fs1 with tmp := some content }
    [fs, fs1, fs2, { fs2 with orig := some content, tmp := none }]
  else [fs]

/-! ## Basic lemmas about the dict operations -/

theorem getField_setField_self (o : Obj) (k : String) (v : Json) :
    getField (setField o k v) k = some v := by
  induction o with
  | nil => simp [setField, getField]
  | cons p rest ih =>
      obtain ⟨k0, v0⟩ := p
      by_cases h : k0 = k
      · simp [setField, h, getField]
      · simp [setField, h, getField, ih]

theorem getField_setField_ne (o : Obj) (k k' : String) (v : Json)
    (h : k ≠ k') : getField (setField o k v) k' = getField o k' := by
  induction o with
  | nil => simp [setField, getField, h]
  | cons p rest ih =>
      obtain ⟨k0, v0⟩ := p
      by_cases h0 : k0 = k
      · simp [setField, h0, getField, h, Ne.symm h]
      · by_cases h1 : k0 = k'
        · simp [setField, h0, getField, h1, Ne.symm h]
        · simp [setField, h0, getField, h1, ih]

theorem getField_popField_self (o : Obj) (k : String) :
    getField (popField o k) k = none := by
  induction o with
  | nil => rfl
  | cons p rest ih =>
      obtain ⟨k0, v0⟩ := p
      by_cases h : k0 = k
      · simp [popField, h, ih]
      · simp [popField, h, getField, ih]

theorem getField_popField_ne (o : Obj) (k k' : String) (h : k ≠ k') :
    getField (popField o k) k' = getField o k' := by
  induction o with
  | nil => rfl
  | cons p rest ih =>
      obtain ⟨k0, v0⟩ := p
      by_cases h0 : k0 = k
      · simp [popField, h0, getField, h, Ne.symm h, ih]
      · by_cases h1 : k0 = k'
        · simp [popField, h0, getField, h1, Ne.symm h]
        · simp [popField, h0, getField, h1, ih]

/-! ## The selection order is a total preorder -/

theorem keyLE_iff (t u : Obj) : keyLE t u = true ↔
    ((sortKey t).1 < (sortKey u).1 ∨
      ((sortKey t).1 = (sortKey u).1 ∧ (sortKey t).2 ≤ (sortKey u).2)) := by
  simp [keyLE, Bool.or_eq_true, Bool.and_eq_true, decide_eq_true_eq]

theorem keyLE_refl (t : Obj) : keyLE t t = true :=
  (keyLE_iff t t).2 (Or.inr ⟨rfl, le_refl _⟩)

instance : IsTrans Obj rKey :=
  ⟨fun a b c hab hbc => by
    have h1 := (keyLE_iff a b).1 hab
    have h2 := (keyLE_iff b c).1 hbc
    refine (keyLE_iff a c).2 ?_
    rcases h1 with h1 | ⟨e1, s1⟩
    · rcases h2 with h2 | ⟨e2, s2⟩
      · exact Or.inl (h1.trans h2)
      · exact Or.inl (e2 ▸ h1)
    · rcases h2 with h2 | ⟨e2, s2⟩
      · exact Or.inl (e1 ▸ h2)
      · exact Or.inr ⟨e1.trans e2, s1.trans s2⟩⟩

instance : IsTotal Obj rKey :=
  ⟨fun a b => by
    rcases Nat.lt_trichotomy (sortKey a).1 (sortKey b).1 with h | h | h
    · exact Or.inl ((keyLE_iff a b).2 (Or.inl h))
    · rcases le_total (sortKey a).2 (sortKey b).2 with h2 | h2
      · exact Or.inl ((keyLE_iff a b).2 (Or.inr ⟨h, h2⟩))
      · exact Or.inr ((keyLE_iff b a).2 (Or.inr ⟨h.symm, h2⟩))
    · exact Or.inr ((keyLE_iff b a).2 (Or.inl h))⟩

/-- The head of a sorted (under `rKey`) list is a lower bound for it. -/
theorem head_keyLE_all {l : List Obj} (hs : List.Sorted rKey l) {t : Obj}
    (ht : l.head? = some t) : ∀ u ∈ l, keyLE t u = true := by
  cases l with
  | nil => cases ht
  | cons a rest =>
      cases ht
      intro u hu
      rcases List.mem_cons.1 hu with rfl | hu
      · exact keyLE_refl u
      · exact (List.sorted_cons.1 hs).1 u hu

/-! ## Structural lemmas about Reap -/

theorem reapTask_not_reapable {now : Int} {t : Obj}
    (h : reapable now t = false) : reapTask now t = t := by
  simp [reapTask, h]

/-- The fields of a task the reap branch actually mutates. -/
theorem reapTask_fields {now : Int} {t : Obj} (h : reapable now t = true) :
    getField (reapTask now t) "claimed_by" = none ∧
    getField (reapTask now t) "claimed_at" = none ∧
    getField (reapTask now t) "lease_expires_at" = none ∧
    getField (reapTask now t) "status" = some (.str "failed") ∧
    getField (reapTask now t) "attempts" = some (.num (newAttempts t)) := by
  have hcbca : ("claimed_by" : String) ≠ "claimed_at" := by decide
  have hcble : ("claimed_by" : String) ≠ "lease_expires_at" := by decide
  have hstca : ("status" : String) ≠ "claimed_at" := by decide
  have hstle : ("status" : String) ≠ "lease_expires_at" := by decide
  have hstcb : ("status" : String) ≠ "claimed_by" := by decide
  have hatca : ("attempts" : String) ≠ "claimed_at" := by decide
  have hatle : ("attempts" : String) ≠ "lease_expires_at" := by decide
  have hatcb : ("attempts" : String) ≠ "claimed_by" := by decide
  have hatst : ("attempts" : String) ≠ "status" := by decide
  have hater : ("attempts" : String) ≠ "error_log" := by decide
  simp only [reapTask, h, if_true]
  constructor
  · rw [getField_popField_ne _ _ _ (Ne.symm hcbca),
      getField_popField_ne _ _ _ hcble.symm, getField_popField_self]
  constructor
  · rw [getField_popField_self]
  constructor
  · rw [getField_popField_ne _ _ _ (by decide : ("claimed_at" : String) ≠ "lease_expires_at"),
      getField_popField_self]
  constructor
  · rw [getField_popField_ne _ _ _ hstca.symm,
      getField_popField_ne _ _ _ hstle.symm,
      getField_popField_ne _ _ _ hstcb.symm, getField_setField_self]
  · rw [getField_popField_ne _ _ _ hatca.symm,
      getField_popField_ne _ _ _ hatle.symm,
      getField_popField_ne _ _ _ hatcb.symm,
      getField_setField_ne _ _ _ _ (Ne.symm hatst)]
    split
    · rw [getField_setField_ne _ _ _ _ (Ne.symm hater), getField_setField_self]
    · rw [getField_setField_ne _ _ _ _ (Ne.symm hater), getField_setField_self]

theorem reapTask_status_failed {now : Int} {t : Obj}
    (h : reapable now t = true) :
    strGetD (reapTask now t) "status" = "failed" := by
  rw [strGetD, (reapTask_fields h).2.2.2.1]
  rfl

theorem reapable_reapTask (n1 n2 : Int) (t : Obj)
    (h : reapable n1 t = true) : reapable n2 (reapTask n1 t) = false := by
  simp [reapable, reapTask_status_failed h]

theorem reapTask_idem (now : Int) (t : Obj) :
    reapTask now (reapTask now t) = reapTask now t := by
  by_cases h : reapable now t = true
  · exact reapTask_not_reapable (reapable_reapTask now now t h)
  · have hf : reapable now t = false := by
      cases hr : reapable now t
      · rfl
      · exact absurd hr h
    rw [reapTask_not_reapable hf, reapTask_not_reapable hf]

/-! ## C8 — State Store save -/

/-- C8 counterexample: the claim says a failure of the backup copy does not
make save fail, but `_atomic_write_json` does not guard `shutil.copy2`, so
a failed backup copy aborts the save (the original document is untouched,
but no new content is written). -/
theorem c8_counterexample :
    atomic_write_json false ⟨some "old", none, none⟩ "new" =
      .error ⟨some "old", none, none⟩ := rfl

/-- C8 (amended): save copies the current file to a `.bak` sibling, and a
failure of that copy aborts the whole save with the document untouched
(the copy is not best-effort); on success it writes the full new content
to a temporary sibling and atomically replaces the original, which holds
its old content at every step before the final replace. -/
theorem c8_save (fs : FS) (c : String) :
    atomic_write_json false fs c = .error fs ∧
    atomic_write_json true fs c = .ok ⟨some c, fs.orig, none⟩ ∧
    ((atomic_write_states true fs c).dropLast).all
      (fun s => s.orig == fs.orig) = true ∧
    (atomic_write_states true fs c).getLast?.map FS.orig = some (some c) := by
  refine ⟨rfl, rfl, ?_, rfl⟩
  simp [atomic_write_states]

/-! ## C2 — Reap on an unparsable lease -/

/-- A task whose `lease_expires_at` is not parsable as a timestamp. -/
def c2Task : Obj :=
  [("id", .str "u1"), ("status", .str "in_progress"), ("attempts", .num 0),
   ("claimed_by", .str "w9"), ("claimed_at", .str "1970-01-01T00:00:00Z"),
   ("lease_expires_at", .num 5)]

/-- C2 counterexample: an in-progress task with an unparsable
`lease_expires_at` (here the number 5, which `_parse_iso` rejects because
it is not a string) is skipped by Reap — `exp is None or exp > now` —
rather than treated as already expired: nothing is incremented, logged,
cleared or failed. -/
theorem c2_counterexample :
    parse_iso (Json.num 5) = none ∧
    reapTask 1000 c2Task = c2Task ∧
    reapTasks 1000 [c2Task] = [c2Task] ∧
    strGetD (reapTask 1000 c2Task) "status" = "in_progress" ∧
    attemptsOf (reapTask 1000 c2Task) = 0 :=
  ⟨rfl, rfl, rfl, rfl, rfl⟩

/-- The diagnostic entry the reap branch appends:
`f"[SESSION_TIMEOUT] Lease expired (claimed_by={t.get('claimed_by')})"`
(an absent key renders as `None`, as in the f-string). -/
def reapErr (t : Obj) : String :=
  "[SESSION_TIMEOUT] Lease expired (claimed_by=" ++
    (match getField t "claimed_by" with
     | none => "None"
     | some v => pyStr v) ++ ")"

/-- The prior `error_log` entries: its list when it is one, else `[]`
(the code replaces a non-list `error_log` by the fresh singleton). -/
def errorLogOf (t : Obj) : List Json :=
  match getField t "error_log" with
  | some (.arr l) => l
  | _ => []

/-- The `error_log` of a reaped task: the prior entries with the
diagnostic entry appended. -/
theorem reapTask_error_log {now : Int} {t : Obj} (h : reapable now t = true) :
    getField (reapTask now t) "error_log" =
      some (.arr (errorLogOf t ++ [.str (reapErr t)])) := by
  have hT1 : getField (setField t "attempts" (.num (newAttempts t)))
      "error_log" = getField t "error_log" :=
    getField_setField_ne _ _ _ _ (by decide : ("attempts" : String) ≠ "error_log")
  simp only [reapTask, h, if_true]
  rw [getField_popField_ne _ _ _
        (by decide : ("claimed_at" : String) ≠ "error_log"),
      getField_popField_ne _ _ _
        (by decide : ("lease_expires_at" : String) ≠ "error_log"),
      getField_popField_ne _ _ _
        (by decide : ("claimed_by" : String) ≠ "error_log"),
      getField_setField_ne _ _ _ _
        (by decide : ("status" : String) ≠ "error_log"),
      hT1]
  cases hv : getField t "error_log" with
  | none => simp [hv, errorLogOf, reapErr, getField_setField_self]
  | some v =>
      cases v with
      | arr l => simp [hv, errorLogOf, reapErr, getField_setField_self]
      | null => simp [hv, errorLogOf, reapErr, getField_setField_self]
      | bool b => simp [hv, errorLogOf, reapErr, getField_setField_self]
      | num n => simp [hv, errorLogOf, reapErr, getField_setField_self]
      | str s0 => simp [hv, errorLogOf, reapErr, getField_setField_self]
      | obj o => simp [hv, errorLogOf, reapErr, getField_setField_self]

/-- C2 (amended): a task whose `lease_expires_at` does not parse is left
entirely unchanged by Reap (the lease is treated as not expired, not as
already expired); only a task in `in_progress` whose lease parses to an
instant not after `now` is reaped, and for it Reap increments `attempts`,
appends the diagnostic entry to `error_log` recording the abandoning
owner, clears `claimed_by`/`claimed_at`/`lease_expires_at` and sets
status failed. -/
theorem c2_reap_unparsable (now : Int) (t : Obj) :
    (parse_iso ((getField t "lease_expires_at").getD .null) = none →
      reapTask now t = t) ∧
    (∀ e, strGetD t "status" = "in_progress" →
      parse_iso ((getField t "lease_expires_at").getD .null) = some e →
      e ≤ now →
      strGetD (reapTask now t) "status" = "failed" ∧
      getField (reapTask now t) "claimed_by" = none ∧
      getField (reapTask now t) "claimed_at" = none ∧
      getField (reapTask now t) "lease_expires_at" = none ∧
      getField (reapTask now t) "attempts" = some (.num (newAttempts t)) ∧
      getField (reapTask now t) "error_log" =
        some (.arr (errorLogOf t ++ [.str (reapErr t)]))) := by
  constructor
  · intro hun
    apply reapTask_not_reapable
    simp [reapable, hun]
  · intro e hst hp hle
    have hr : reapable now t = true := by
      simp [reapable, hst, hp, hle]
    have hf := reapTask_fields hr
    exact ⟨reapTask_status_failed hr, hf.1, hf.2.1, hf.2.2.1, hf.2.2.2.2,
      reapTask_error_log hr⟩

/-- C2 witness: `c2_reap_unparsable` applied to a task with the junk lease
string `"soon"` (hypothesis discharged by evaluation) and, for the second
part, to a task with an expired parsable lease. -/
theorem c2_reap_unparsable_witness :
    reapTask 9 [("status", .str "in_progress"), ("lease_expires_at", .str "soon")] =
      [("status", .str "in_progress"), ("lease_expires_at", .str "soon")] ∧
    strGetD (reapTask 9 [("status", .str "in_progress"),
      ("lease_expires_at", .str "1970-01-01T00:00:05Z")]) "status" = "failed" ∧
    getField (reapTask 9 [("status", .str "in_progress"),
      ("lease_expires_at", .str "1970-01-01T00:00:05Z")]) "error_log" =
      some (.arr (errorLogOf [("status", .str "in_progress"),
          ("lease_expires_at", .str "1970-01-01T00:00:05Z")] ++
        [.str (reapErr [("status", .str "in_progress"),
          ("lease_expires_at", .str "1970-01-01T00:00:05Z")])])) :=
  ⟨(c2_reap_unparsable 9 [("status", .str "in_progress"),
      ("lease_expires_at", .str "soon")]).1 (by decide),
   ((c2_reap_unparsable 9 [("status", .str "in_progress"),
      ("lease_expires_at", .str "1970-01-01T00:00:05Z")]).2 5 (by decide)
      (by decide) (by decide)).1,
   ((c2_reap_unparsable 9 [("status", .str "in_progress"),
      ("lease_expires_at", .str "1970-01-01T00:00:05Z")]).2 5 (by decide)
      (by decide) (by decide)).2.2.2.2.2⟩

/-! ## C5 — Idempotence of Reap -/

/-- An in-progress task whose lease expires at instant 5. -/
def c5Task : Obj :=
  [("id", .str "x1"), ("status", .str "in_progress"), ("attempts", .num 0),
   ("claimed_by", .str "w1"), ("claimed_at", .str "1970-01-01T00:00:00Z"),
   ("lease_expires_at", .str "1970-01-01T00:00:05Z")]

/-- C5 counterexample: Reap at `now = 3` changes nothing (the lease, expiring
at 5, is still live), so the list is "a task list on which Reap has already
been applied"; re-running Reap at the later `now = 7` nevertheless mutates
it (the lease expired in between), refuting the "same or a later reference
now" form of the claim. -/
theorem c5_counterexample :
    reapTasks 3 [c5Task] = [c5Task] ∧
    reapTasks 7 (reapTasks 3 [c5Task]) ≠ reapTasks 3 [c5Task] := by
  refine ⟨rfl, ?_⟩
  intro h
  have h2 := congrArg (List.map (fun t => strGetD t "status")) h
  revert h2
  decide

/-- C5 (amended): Reap is idempotent at a fixed reference `now`
(a second pass changes nothing), and a task actually reaped by one pass is
never mutated again by any later pass (no second `attempts` increment, no
duplicate `error_log` entry); but a task whose lease was still live at the
first `now` may be newly reaped at a later one. -/
theorem c5_reap_idem :
    (∀ (now : Int) (ts : List Obj),
      reapTasks now (reapTasks now ts) = reapTasks now ts) ∧
    (∀ (n1 n2 : Int) (t : Obj), reapable n1 t = true →
      reapTask n2 (reapTask n1 t) = reapTask n1 t) := by
  constructor
  · intro now ts
    rw [reapTasks, reapTasks, List.map_map]
    exact List.map_congr_left (fun t _ => reapTask_idem now t)
  · intro n1 n2 t h
    exact reapTask_not_reapable (reapable_reapTask n1 n2 t h)

/-- C5 witness: the second part of `c5_reap_idem` applied to a concrete
reapable task. -/
theorem c5_reap_idem_witness :
    reapTask 9 (reapTask 7 c5Task) = reapTask 7 c5Task :=
  (c5_reap_idem).2 7 9 c5Task (by decide)

/-! ## C3 — nextTask selection order -/

/-- The head of the stable sort of a non-empty list is an element whose
key is a lower bound for the whole list. -/
theorem sortTasks_min {l : List Obj} (h : l ≠ []) :
    ∃ t, (sortTasks l).head? = some t ∧ t ∈ l ∧
      ∀ u ∈ l, keyLE t u = true := by
  have hperm : List.Perm (sortTasks l) l := List.perm_insertionSort rKey l
  have hsorted : List.Sorted rKey (sortTasks l) :=
    List.sorted_insertionSort rKey l
  have hne : sortTasks l ≠ [] := by
    intro h0
    exact h (List.Perm.eq_nil (h0 ▸ hperm).symm)
  obtain ⟨t, rest, heq⟩ := List.exists_cons_of_ne_nil hne
  refine ⟨t, by rw [heq]; rfl, ?_, ?_⟩
  · exact hperm.mem_iff.1 (heq ▸ List.mem_cons_self t rest)
  · intro u hu
    exact head_keyLE_all hsorted (by rw [heq]; rfl) u (hperm.mem_iff.2 hu)

/-- C3: `nextTask` returns a least element (priority rank ascending, then
id ascending) of `pendingEligible` when that set is non-empty, else a
least element of `retryEligible`, else none; a pending-eligible task is
selected before any retry-eligible one regardless of priority or id. -/
theorem c3_nextTask (ts : List Obj) :
    ((pending_eligible ts).isEmpty = false →
      ∃ t, nextTask ts = some t ∧ t ∈ pending_eligible ts ∧
        ∀ u ∈ pending_eligible ts, keyLE t u = true) ∧
    ((pending_eligible ts).isEmpty = true → (retryable ts).isEmpty = false →
      ∃ t, nextTask ts = some t ∧ t ∈ retryable ts ∧
        ∀ u ∈ retryable ts, keyLE t u = true) ∧
    ((pending_eligible ts).isEmpty = true → (retryable ts).isEmpty = true →
      nextTask ts = none) := by
  refine ⟨?_, ?_, ?_⟩
  · intro hp
    have hne : pending_eligible ts ≠ [] := by
      intro h0
      rw [h0] at hp
      exact absurd hp (by simp)
    obtain ⟨t, hh, hmem, hmin⟩ := sortTasks_min hne
    refine ⟨t, ?_, hmem, hmin⟩
    simp only [nextTask, eligible_tasks]
    rw [hh]
  · intro hp hr
    have hpe : pending_eligible ts = [] := List.isEmpty_iff.1 hp
    have hne : retryable ts ≠ [] := by
      intro h0
      rw [h0] at hr
      exact absurd hr (by simp)
    obtain ⟨t, hh, hmem, hmin⟩ := sortTasks_min hne
    refine ⟨t, ?_, hmem, hmin⟩
    simp only [nextTask, eligible_tasks, hpe]
    rw [show sortTasks [] = [] from rfl]
    rw [hh]
    rfl
  · intro hp hr
    have hpe : pending_eligible ts = [] := List.isEmpty_iff.1 hp
    have hre : retryable ts = [] := List.isEmpty_iff.1 hr
    simp only [nextTask, eligible_tasks, hpe, hre]
    rfl

/-- C3 witness: `c3_nextTask` applied to a concrete one-task list whose
only task is pending with no dependencies. -/
theorem c3_nextTask_witness :
    ∃ t, nextTask [[("id", Json.str "a"), ("status", Json.str "pending")]] = some t ∧
      t ∈ pending_eligible [[("id", Json.str "a"), ("status", Json.str "pending")]] ∧
      ∀ u ∈ pending_eligible [[("id", Json.str "a"), ("status", Json.str "pending")]],
        keyLE t u = true :=
  (c3_nextTask [[("id", Json.str "a"), ("status", Json.str "pending")]]).1 (by decide)

/-! ## C4 — eligibility membership -/

/-- Is the value a JSON sequence (a list)? -/
def isSeqJson : Json → Bool
  | .arr _ => true
  | _ => false

/-- The dependency list as the code normalizes it: an absent or falsy
`depends_on` becomes `[]` (via `or []`), a truthy list is kept, and a
truthy non-list makes the task ineligible (`none`). -/
def normDeps (t : Obj) : Option (List Json) :=
  match getField t "depends_on" with
  | none => some []
  | some v =>
      if pyTruthy v then
        match v with
        | .arr l => some l
        | _ => none
      else some []

theorem deps_completed_iff (comp : List String) (t : Obj) :
    deps_completed comp t = true ↔
      ∃ ds, normDeps t = some ds ∧ ∀ d ∈ ds, pyStr d ∈ comp := by
  unfold deps_completed normDeps
  cases hv : getField t "depends_on" with
  | none => simp [List.all_eq_true]
  | some v =>
      by_cases ht : pyTruthy v
      · cases v with
        | arr l =>
            simp [ht, List.all_eq_true, List.elem_iff]
        | null => simp [ht]
        | bool b => simp [ht]
        | num n => simp [ht]
        | str s => simp [ht]
        | obj o => simp [ht]
      · have ht' : pyTruthy v = false := by
          cases hb : pyTruthy v
          · rfl
          · exact absurd hb ht
        simp [ht', List.all_eq_true]

/-- A task whose `depends_on` is the (falsy, non-sequence) value `false`. -/
def c4Task : Obj :=
  [("id", .str "d1"), ("status", .str "pending"), ("priority", .str "P0"),
   ("depends_on", .bool false)]

/-- C4 counterexample: `depends_on = false` is not a sequence, yet
`t.get("depends_on") or []` coerces it to `[]`, so the task is in
`pendingEligible` and is even the task `nextTask` selects — refuting
"a task whose depends_on is not a sequence is in neither set". -/
theorem c4_counterexample :
    getField c4Task "depends_on" = some (Json.bool false) ∧
    isSeqJson (Json.bool false) = false ∧
    pending_eligible [c4Task] = [c4Task] ∧
    nextTask [c4Task] = some c4Task :=
  ⟨rfl, rfl, rfl, rfl⟩

/-- C4 (amended): a task is in `pendingEligible` iff its status is pending
and its normalized dependency list exists with every member's string form
the id of a completed task, where normalization maps an absent or falsy
`depends_on` (null, false, 0, empty string/array/object) to the empty
list; a task is in `retryEligible` iff its status is failed, the same
dependency condition holds, and `attempts < max_attempts` (default 3);
only a TRUTHY non-sequence `depends_on` (e.g. a non-empty string or a
non-zero number) puts the task in neither set. -/
theorem c4_eligibility (ts : List Obj) (t : Obj) :
    (t ∈ pending_eligible ts ↔
      t ∈ ts ∧ strGetD t "status" = "pending" ∧
        ∃ ds, normDeps t = some ds ∧ ∀ d ∈ ds, pyStr d ∈ completedIds ts) ∧
    (t ∈ retryable ts ↔
      t ∈ ts ∧ strGetD t "status" = "failed" ∧
        attemptsOf t < max_attempts t ∧
        ∃ ds, normDeps t = some ds ∧ ∀ d ∈ ds, pyStr d ∈ completedIds ts) ∧
    (∀ v, getField t "depends_on" = some v → pyTruthy v = true →
      isSeqJson v = false →
      t ∉ pending_eligible ts ∧ t ∉ retryable ts) := by
  have hdeps := deps_completed_iff (completedIds ts) t
  refine ⟨?_, ?_, ?_⟩
  · rw [pending_eligible, List.mem_filter]
    simp [Bool.and_eq_true, decide_eq_true_eq, hdeps, and_assoc]
  · rw [retryable, List.mem_filter]
    simp [Bool.and_eq_true, decide_eq_true_eq, hdeps, and_assoc]
  · intro v hv htr hseq
    have hnd : normDeps t = none := by
      unfold normDeps
      rw [hv]
      simp only [htr, if_true]
      cases v with
      | arr l => simp [isSeqJson] at hseq
      | null => rfl
      | bool b => rfl
      | num n => rfl
      | str s => rfl
      | obj o => rfl
    have hdc : deps_completed (completedIds ts) t = false := by
      cases hb : deps_completed (completedIds ts) t
      · rfl
      · obtain ⟨ds, hds, _⟩ := hdeps.1 hb
        rw [hnd] at hds
        cases hds
    constructor
    · intro hmem
      have := (List.mem_filter.1 hmem).2
      rw [Bool.and_eq_true, hdc] at this
      exact absurd this.2 (by simp)
    · intro hmem
      have := (List.mem_filter.1 hmem).2
      rw [Bool.and_eq_true, hdc] at this
      exact absurd this.2 (by simp)

/-- C4 witness: the last part of `c4_eligibility` at a concrete task whose
`depends_on` is the truthy non-sequence string `"x"`. -/
theorem c4_eligibility_witness :
    [("status", Json.str "pending"), ("depends_on", Json.str "x")] ∉
      pending_eligible [[("status", Json.str "pending"), ("depends_on", Json.str "x")]] ∧
    [("status", Json.str "pending"), ("depends_on", Json.str "x")] ∉
      retryable [[("status", Json.str "pending"), ("depends_on", Json.str "x")]] :=
  (c4_eligibility [[("status", Json.str "pending"), ("depends_on", Json.str "x")]]
      [("status", Json.str "pending"), ("depends_on", Json.str "x")]).2.2
    (Json.str "x") rfl (by decide) (by decide)

/-! ## C6 — Renew -/

theorem renewMut_status (t : Obj) (w : String) (ls now : Int) :
    strGetD (renewMut t w ls now) "status" = strGetD t "status" := by
  rw [renewMut, strGetD, strGetD,
    getField_setField_ne _ _ _ _ (by decide : ("claimed_by" : String) ≠ "status"),
    getField_setField_ne _ _ _ _
      (by decide : ("lease_expires_at" : String) ≠ "status")]

theorem renewMut_attempts (t : Obj) (w : String) (ls now : Int) :
    attemptsOf (renewMut t w ls now) = attemptsOf t := by
  rw [renewMut, attemptsOf, attemptsOf,
    getField_setField_ne _ _ _ _ (by decide : ("claimed_by" : String) ≠ "attempts"),
    getField_setField_ne _ _ _ _
      (by decide : ("lease_expires_at" : String) ≠ "attempts")]

theorem renewMut_lease (t : Obj) (w : String) (ls now : Int) :
    getField (renewMut t w ls now) "lease_expires_at" =
      some (.str (iso_z (now + ls))) := by
  rw [renewMut,
    getField_setField_ne _ _ _ _
      (by decide : ("claimed_by" : String) ≠ "lease_expires_at"),
    getField_setField_self]

theorem renewMut_claimed_by (t : Obj) (w : String) (ls now : Int) :
    getField (renewMut t w ls now) "claimed_by" = some (.str w) := by
  rw [renewMut, getField_setField_self]

theorem renewMut_claimed_at (t : Obj) (w : String) (ls now : Int) :
    getField (renewMut t w ls now) "claimed_at" = getField t "claimed_at" := by
  rw [renewMut,
    getField_setField_ne _ _ _ _ (by decide : ("claimed_by" : String) ≠ "claimed_at"),
    getField_setField_ne _ _ _ _
      (by decide : ("lease_expires_at" : String) ≠ "claimed_at")]

/-- C6: Renew reports `task not found` when no task stringifies to the
given id, `task not in_progress` when the found task's status is not
in_progress, `task owned by other worker` when `claimed_by` is set (non
empty) and differs from the caller; otherwise it persists exactly one
document in which only the found task is replaced, with
`lease_expires_at = now + lease_duration`, reporting the new expiry, and
the mutation changes neither `status` nor `attempts`; every error path
persists nothing. -/
theorem c6_renew (st : Obj) (raw : List Json) (taskId workerId : String)
    (ls now : Int) (hid : taskId ≠ "") (hw : workerId ≠ "")
    (hraw : tasksArr st = some raw) :
    ((raw.filterMap asObj).enum.find?
        (fun p => strGetOr p.2 "id" "" = taskId) = none →
      renew_main (Json.obj st) taskId workerId ls now =
        ([], .err "task not found")) ∧
    (∀ i t, (raw.filterMap asObj).enum.find?
        (fun p => strGetOr p.2 "id" "" = taskId) = some (i, t) →
      (strGetOr t "status" "" ≠ "in_progress" →
        renew_main (Json.obj st) taskId workerId ls now =
          ([], .err "task not in_progress")) ∧
      (strGetOr t "status" "" = "in_progress" →
        strGetOr t "claimed_by" "" ≠ "" →
        strGetOr t "claimed_by" "" ≠ workerId →
        renew_main (Json.obj st) taskId workerId ls now =
          ([], .err "task owned by other worker")) ∧
      (strGetOr t "status" "" = "in_progress" →
        (strGetOr t "claimed_by" "" = "" ∨ strGetOr t "claimed_by" "" = workerId) →
        renew_main (Json.obj st) taskId workerId ls now =
          ([Json.obj (setField st "tasks" (.arr
              (((raw.filterMap asObj).set i (renewMut t workerId ls now)).map
                Json.obj)))],
            .renewed taskId (iso_z (now + ls))) ∧
        strGetD (renewMut t workerId ls now) "status" = strGetD t "status" ∧
        attemptsOf (renewMut t workerId ls now) = attemptsOf t ∧
        getField (renewMut t workerId ls now) "lease_expires_at" =
          some (.str (iso_z (now + ls))))) := by
  constructor
  · intro hfind
    simp only [renew_main, hid, hw, hraw, hfind]
    simp
  · intro i t hfind
    refine ⟨?_, ?_, ?_⟩
    · intro hst
      simp only [renew_main, hid, hw, hraw, hfind]
      rw [if_neg (by simpa using hid), if_neg (by simpa using hw), if_pos hst]
    · intro hst hcb1 hcb2
      simp only [renew_main, hid, hw, hraw, hfind]
      rw [if_neg (by simpa using hid), if_neg (by simpa using hw),
        if_neg (by simpa using hst), if_pos ⟨hcb1, hcb2⟩]
    · intro hst hok
      refine ⟨?_, renewMut_status t workerId ls now,
        renewMut_attempts t workerId ls now, renewMut_lease t workerId ls now⟩
      simp only [renew_main, hid, hw, hraw, hfind]
      rw [if_neg (by simpa using hid), if_neg (by simpa using hw),
        if_neg (by simpa using hst), if_neg ?_]
      rintro ⟨h1, h2⟩
      rcases hok with h | h
      · exact h1 h
      · exact h2 h

/-- C6 witness: the not-found branch of `c6_renew` on a concrete document
(all hypotheses discharged by evaluation). -/
theorem c6_renew_witness :
    renew_main (Json.obj [("tasks", Json.arr
        [Json.obj [("id", Json.str "A"), ("status", Json.str "pending")]])])
      "Z" "w1" 1800 1000 = ([], .err "task not found") :=
  (c6_renew [("tasks", Json.arr
      [Json.obj [("id", Json.str "A"), ("status", Json.str "pending")]])]
    [Json.obj [("id", Json.str "A"), ("status", Json.str "pending")]]
    "Z" "w1" 1800 1000 (by decide) (by decide) rfl).1 rfl

/-! ## C7 — lease-fields/status invariant -/

/-- The §3 invariant for one task: `claimed_by`/`claimed_at`/
`lease_expires_at` are each present iff status is `in_progress`. -/
def invTask (t : Obj) : Bool :=
  let ip : Bool := strGetD t "status" = "in_progress"
  ((getField t "claimed_by").isSome == ip) &&
    ((getField t "claimed_at").isSome == ip) &&
    ((getField t "lease_expires_at").isSome == ip)

/-- The dict-filtered task list of a (document-shaped) JSON value. -/
def docTasks (j : Json) : Option (List Obj) :=
  match j with
  | .obj st => (tasksArr st).map (fun raw => raw.filterMap asObj)
  | _ => none

/-- The invariant over a whole persisted document. -/
def invDoc (j : Json) : Prop :=
  ∀ l, docTasks j = some l → ∀ t ∈ l, invTask t = true

theorem filterMap_asObj_map_obj (l : List Obj) :
    (l.map Json.obj).filterMap asObj = l := by
  induction l with
  | nil => rfl
  | cons a rest ih => simp [asObj, ih]

/-- What `docTasks` sees in a document the engine just wrote. -/
theorem docTasks_write (st : Obj) (l : List Obj) :
    docTasks (Json.obj (setField st "tasks" (.arr (l.map Json.obj)))) =
      some l := by
  have hget := getField_setField_self st "tasks" (.arr (l.map Json.obj))
  cases l with
  | nil =>
      simp only [List.map_nil] at hget
      simp [docTasks, tasksArr, hget, pyTruthy]
  | cons a rest =>
      simp only [docTasks, tasksArr, hget]
      simpa [pyTruthy] using filterMap_asObj_map_obj (a :: rest)

theorem invTask_reapTask (now : Int) (t : Obj) (h : invTask t = true) :
    invTask (reapTask now t) = true := by
  by_cases hr : reapable now t = true
  · have hf := reapTask_fields hr
    simp [invTask, hf.1, hf.2.1, hf.2.2.1, reapTask_status_failed hr]
  · rw [reapTask_not_reapable (by revert hr; cases reapable now t <;> simp)]
    exact h

theorem invTask_claimMut (t : Obj) (w : String) (now exp : Int) :
    invTask (claimMut t w now exp) = true := by
  have h1 : getField (claimMut t w now exp) "lease_expires_at" =
      some (.str (iso_z exp)) := by
    rw [claimMut, getField_setField_self]
  have h2 : getField (claimMut t w now exp) "claimed_at" =
      some (.str (iso_z now)) := by
    rw [claimMut,
      getField_setField_ne _ _ _ _
        (by decide : ("lease_expires_at" : String) ≠ "claimed_at"),
      getField_setField_self]
  have h3 : getField (claimMut t w now exp) "claimed_by" = some (.str w) := by
    rw [claimMut,
      getField_setField_ne _ _ _ _
        (by decide : ("lease_expires_at" : String) ≠ "claimed_by"),
      getField_setField_ne _ _ _ _
        (by decide : ("claimed_at" : String) ≠ "claimed_by"),
      getField_setField_self]
  have h4 : strGetD (claimMut t w now exp) "status" = "in_progress" := by
    rw [claimMut, strGetD,
      getField_setField_ne _ _ _ _
        (by decide : ("lease_expires_at" : String) ≠ "status"),
      getField_setField_ne _ _ _ _
        (by decide : ("claimed_at" : String) ≠ "status"),
      getField_setField_ne _ _ _ _
        (by decide : ("claimed_by" : String) ≠ "status"),
      getField_setField_self]
    rfl
  simp [invTask, h1, h2, h3, h4]

theorem invTasks_set {l : List Obj} {i : Nat} {x : Obj}
    (hl : ∀ t ∈ l, invTask t = true) (hx : invTask x = true) :
    ∀ t ∈ l.set i x, invTask t = true := by
  intro t ht
  rcases List.mem_or_eq_of_mem_set ht with h | h
  · exact hl t h
  · exact h ▸ hx

theorem strGetD_of_strGetOr {t : Obj} {k s : String}
    (h : strGetOr t k "" = s) (hs : s ≠ "") : strGetD t k = s := by
  unfold strGetOr at h
  unfold strGetD
  cases hv : getField t k with
  | none =>
      simp only [hv] at h
      exact absurd h.symm hs
  | some v =>
      simp only [hv] at h ⊢
      by_cases ht : pyTruthy v = true
      · rwa [if_pos ht] at h
      · rw [if_neg ht] at h
        exact absurd h.symm hs

theorem invTask_renewMut {t : Obj} (w : String) (ls now : Int)
    (hinv : invTask t = true)
    (hst : strGetOr t "status" "" = "in_progress") :
    invTask (renewMut t w ls now) = true := by
  have hst' : strGetD t "status" = "in_progress" :=
    strGetD_of_strGetOr hst (by decide)
  have hca : (getField t "claimed_at").isSome = true := by
    rw [invTask] at hinv
    simp only [hst', Bool.and_eq_true, beq_iff_eq] at hinv
    simpa using hinv.1.2
  rw [invTask, renewMut_claimed_by, renewMut_claimed_at, renewMut_lease]
  have hsts : strGetD (renewMut t w ls now) "status" = "in_progress" := by
    rw [renewMut_status]; exact hst'
  simp [hsts, hca]

/-- C7: the lease-fields invariant is preserved: Reap (which removes all
three fields whenever it moves a task out of in_progress), Claim (which
sets all three exactly on the task it moves to in_progress) and Renew
(which re-stamps `lease_expires_at`/`claimed_by` on an in_progress task)
each persist only documents whose every task satisfies the invariant,
provided the loaded document satisfied it. -/
theorem c7_lease_fields_inv :
    (∀ (now : Int) (t : Obj), invTask t = true →
      invTask (reapTask now t) = true) ∧
    (∀ st raw workerEnv host ls now writes res,
      tasksArr st = some raw →
      claim_main (Json.obj st) workerEnv host ls now = .ok (writes, res) →
      (∀ t ∈ raw.filterMap asObj, invTask t = true) →
      ∀ w ∈ writes, invDoc w) ∧
    (∀ st raw taskId workerId ls now,
      tasksArr st = some raw →
      (∀ t ∈ raw.filterMap asObj, invTask t = true) →
      ∀ w ∈ (renew_main (Json.obj st) taskId workerId ls now).1, invDoc w) := by
  refine ⟨invTask_reapTask, ?_, ?_⟩
  · intro st raw workerEnv host ls now writes res hraw h hinv
    have hreap : ∀ t ∈ reapTasks now (raw.filterMap asObj), invTask t = true := by
      intro t ht
      obtain ⟨u, hu, rfl⟩ := List.mem_map.1 ht
      exact invTask_reapTask now u (hinv u hu)
    simp only [claim_main, hraw] at h
    split at h
    · -- pickIdx none
      rename_i hpick
      injection h with h
      injection h with hw hres
      subst hw
      intro w hw
      split at hw
      · rcases List.mem_singleton.1 hw with rfl
        intro l hl t ht
        rw [docTasks_write] at hl
        injection hl with hl
        exact hreap t (hl ▸ ht)
      · cases hw
    · rename_i i t hpick
      split at h
      · -- missing worker
        injection h with h
        injection h with hw hres
        subst hw
        intro w hw
        split at hw
        · rcases List.mem_singleton.1 hw with rfl
          intro l hl u hu
          rw [docTasks_write] at hl
          injection hl with hl
          exact hreap u (hl ▸ hu)
        · cases hw
      · injection h with h
        injection h with hw hres
        subst hw
        intro w hw
        rcases List.mem_append.1 hw with hw | hw
        · split at hw
          · rcases List.mem_singleton.1 hw with rfl
            intro l hl u hu
            rw [docTasks_write] at hl
            injection hl with hl
            exact hreap u (hl ▸ hu)
          · cases hw
        · rcases List.mem_singleton.1 hw with rfl
          intro l hl u hu
          rw [docTasks_write] at hl
          injection hl with hl
          subst hl
          exact invTasks_set hreap (invTask_claimMut t _ now (now + ls)) u hu
  · intro st raw taskId workerId ls now hraw hinv w hw
    simp only [renew_main, hraw] at hw
    split at hw
    · cases hw
    · split at hw
      · cases hw
      · split at hw
        · cases hw
        · rename_i i t hfind
          split at hw
          · cases hw
          · rename_i hst
            split at hw
            · cases hw
            · rcases List.mem_singleton.1 hw with rfl
              intro l hl u hu
              rw [docTasks_write] at hl
              injection hl with hl
              subst hl
              have hst' : strGetOr t "status" "" = "in_progress" := by
                by_cases hs : strGetOr t "status" "" = "in_progress"
                · exact hs
                · exact absurd hs (by simpa using hst)
              have htmem : t ∈ raw.filterMap asObj := by
                have hmem := List.mem_of_find?_eq_some hfind
                have hget : (raw.filterMap asObj)[i]? = some t :=
                  List.mk_mem_enum_iff_getElem?.1 hmem
                exact List.getElem?_mem hget
              exact invTasks_set hinv
                (invTask_renewMut workerId ls now (hinv t htmem) hst') u hu

/-- C7 witness: the Reap part of `c7_lease_fields_inv` applied to a
concrete invariant-satisfying in-progress task with an expired lease. -/
theorem c7_lease_fields_inv_witness :
    invTask (reapTask 100 [("status", Json.str "in_progress"),
      ("claimed_by", Json.str "w1"),
      ("claimed_at", Json.str "1970-01-01T00:00:00Z"),
      ("lease_expires_at", Json.str "1970-01-01T00:00:05Z")]) = true :=
  c7_lease_fields_inv.1 100 [("status", Json.str "in_progress"),
      ("claimed_by", Json.str "w1"),
      ("claimed_at", Json.str "1970-01-01T00:00:00Z"),
      ("lease_expires_at", Json.str "1970-01-01T00:00:05Z")] (by decide)

/-! ## C10 — non-object task entries are dropped on every persist -/

/-- The raw `tasks` array of a (document-shaped) JSON value. -/
def docTasksRaw (j : Json) : Option (List Json) :=
  match j with
  | .obj st => tasksArr st
  | _ => none

theorem length_filterMap_asObj (raw : List Json) :
    (raw.filterMap asObj).length = (raw.filter isObjJson).length := by
  induction raw with
  | nil => rfl
  | cons a rest ih => cases a <;> simp [asObj, isObjJson, ih]

theorem tasksArr_write (st : Obj) (l : List Obj) :
    tasksArr (setField st "tasks" (.arr (l.map Json.obj))) =
      some (l.map Json.obj) := by
  have hget := getField_setField_self st "tasks" (.arr (l.map Json.obj))
  cases l with
  | nil =>
      simp only [List.map_nil] at hget
      simp [tasksArr, hget, pyTruthy]
  | cons a rest =>
      simp only [List.map_cons] at hget
      simp [tasksArr, hget, pyTruthy]

theorem all_isObjJson_map_obj (l : List Obj) :
    (l.map Json.obj).all isObjJson = true := by
  induction l with
  | nil => rfl
  | cons a rest ih => simp [isObjJson, ih]

/-- The shape every engine write has, as `docTasksRaw` sees it. -/
theorem c10_write_shape (st : Obj) (raw : List Json) (l : List Obj)
    (hlen : l.length = (raw.filterMap asObj).length) :
    ∃ l', docTasksRaw (Json.obj (setField st "tasks" (.arr (l.map Json.obj)))) =
        some l' ∧ l'.all isObjJson = true ∧
      l'.length = (raw.filter isObjJson).length := by
  refine ⟨l.map Json.obj, ?_, all_isObjJson_map_obj l, ?_⟩
  · simp [docTasksRaw, tasksArr_write]
  · rw [List.length_map, hlen, length_filterMap_asObj]

/-- C10: every document Claim or Renew persists rewrites the `tasks` array
keeping only (possibly mutated) object entries: the persisted array
contains objects only and exactly as many as the loaded array had object
entries — every non-object entry is silently dropped. -/
theorem c10_drops_non_objects :
    (∀ st raw workerEnv host ls now writes res,
      tasksArr st = some raw →
      claim_main (Json.obj st) workerEnv host ls now = .ok (writes, res) →
      ∀ w ∈ writes, ∃ l, docTasksRaw w = some l ∧ l.all isObjJson = true ∧
        l.length = (raw.filter isObjJson).length) ∧
    (∀ st raw taskId workerId ls now,
      tasksArr st = some raw →
      ∀ w ∈ (renew_main (Json.obj st) taskId workerId ls now).1,
        ∃ l, docTasksRaw w = some l ∧ l.all isObjJson = true ∧
          l.length = (raw.filter isObjJson).length) := by
  constructor
  · intro st raw workerEnv host ls now writes res hraw h w hw
    have hreaplen : (reapTasks now (raw.filterMap asObj)).length =
        (raw.filterMap asObj).length := List.length_map _ _
    simp only [claim_main, hraw] at h
    split at h
    · injection h with h
      injection h with hws hres
      subst hws
      split at hw
      · rcases List.mem_singleton.1 hw with rfl
        exact c10_write_shape st raw _ hreaplen
      · cases hw
    · rename_i i t hpick
      split at h
      · injection h with h
        injection h with hws hres
        subst hws
        split at hw
        · rcases List.mem_singleton.1 hw with rfl
          exact c10_write_shape st raw _ hreaplen
        · cases hw
      · injection h with h
        injection h with hws hres
        subst hws
        rcases List.mem_append.1 hw with hw | hw
        · split at hw
          · rcases List.mem_singleton.1 hw with rfl
            exact c10_write_shape st raw _ hreaplen
          · cases hw
        · rcases List.mem_singleton.1 hw with rfl
          refine c10_write_shape st raw _ ?_
          rw [List.length_set]
          exact hreaplen
  · intro st raw taskId workerId ls now hraw w hw
    simp only [renew_main, hraw] at hw
    split at hw
    · cases hw
    · split at hw
      · cases hw
      · split at hw
        · cases hw
        · rename_i i t hfind
          split at hw
          · cases hw
          · split at hw
            · cases hw
            · rcases List.mem_singleton.1 hw with rfl
              refine c10_write_shape st raw _ ?_
              rw [List.length_set]

/-- C10 witness: the Renew part on a document whose `tasks` holds a string
entry besides the renewed task: the persisted array keeps only the object. -/
theorem c10_drops_non_objects_witness :
    ∃ l, docTasksRaw (Json.obj (setField
        [("tasks", Json.arr [Json.str "junk", Json.obj
          [("id", Json.str "C"), ("status", Json.str "in_progress")]])]
        "tasks" (Json.arr ([(renewMut [("id", Json.str "C"),
          ("status", Json.str "in_progress")] "w1" 1800 1000)].map Json.obj)))) =
        some l ∧ l.all isObjJson = true ∧
      l.length = ([Json.str "junk", Json.obj [("id", Json.str "C"),
        ("status", Json.str "in_progress")]].filter isObjJson).length :=
  (c10_drops_non_objects).2
    [("tasks", Json.arr [Json.str "junk", Json.obj
      [("id", Json.str "C"), ("status", Json.str "in_progress")]])]
    [Json.str "junk", Json.obj [("id", Json.str "C"),
      ("status", Json.str "in_progress")]]
    "C" "w1" 1800 1000 rfl _ (by rw [show (renew_main (Json.obj
      [("tasks", Json.arr [Json.str "junk", Json.obj
        [("id", Json.str "C"), ("status", Json.str "in_progress")]])])
      "C" "w1" 1800 1000).1 = [Json.obj (setField
        [("tasks", Json.arr [Json.str "junk", Json.obj
          [("id", Json.str "C"), ("status", Json.str "in_progress")]])]
        "tasks" (Json.arr ([(renewMut [("id", Json.str "C"),
          ("status", Json.str "in_progress")] "w1" 1800 1000)].map
            Json.obj)))] from rfl]; exact List.mem_singleton.2 rfl)

/-! ## C9 — Continuation Gate with nothing left to do -/

/-- C9: whenever `pendingEligible`, `retryEligible` and the set of
in-progress tasks blocking for this caller are all empty, the Gate allows
the stop, deletes the block-counter file and removes the active-marker
file (and writes nothing to the state document). -/
theorem c9_gate_all_done (g : GateIn) (st : Obj) (raw : List Json)
    (hact : g.activePresent = true)
    (hdoc : g.stateJson = some (Json.obj st))
    (hraw : tasksArr st = some raw)
    (hp : (pending_eligible (raw.filterMap asObj)).isEmpty = true)
    (hr : (retryable (raw.filterMap asObj)).isEmpty = true)
    (hb : (in_progress_blocking st g.workerEnv
      (raw.filterMap asObj)).isEmpty = true) :
    gate_main g = ⟨.allow, none, false, []⟩ := by
  simp only [gate_main, hact, hdoc, hraw]
  simp [hp, hr, hb]

/-- C9 witness: `c9_gate_all_done` on a document whose only task is
completed. -/
theorem c9_gate_all_done_witness :
    gate_main ⟨false, true,
        some (Json.obj [("tasks", Json.arr
          [Json.obj [("id", Json.str "A"), ("status", Json.str "completed")]])]),
        "", none, 0, 500, some (2, 0, some 100)⟩ =
      ⟨.allow, none, false, []⟩ :=
  c9_gate_all_done _
    [("tasks", Json.arr
      [Json.obj [("id", Json.str "A"), ("status", Json.str "completed")]])]
    [Json.obj [("id", Json.str "A"), ("status", Json.str "completed")]]
    rfl rfl rfl (by decide) (by decide) (by decide)

/-! ## C1 — the Continuation Gate does not run Reap -/

/-- An in-progress task with an expired lease and exhausted attempts. -/
def c1Task : Obj :=
  [("id", .str "t1"), ("status", .str "in_progress"), ("attempts", .num 3),
   ("claimed_by", .str "w1"), ("claimed_at", .str "1970-01-01T00:00:00Z"),
   ("lease_expires_at", .str "1970-01-01T00:00:05Z")]

/-- A Gate invocation at time 1000 on a readable document holding only
`c1Task`. -/
def c1In : GateIn :=
  ⟨false, true, some (.obj [("tasks", .arr [.obj c1Task])]), "", none,
    1000, 1000, none⟩

/-- C1 counterexample: at a Gate invocation on a readable document whose
only task is in_progress with a lease expired in the past (and
`attempts = max_attempts`), the Gate persists nothing and blocks — whereas
running Reap first, as the claim requires, would fail the task beyond
retry and make the very same Gate invocation allow the stop (shown on the
reaped document).  So the Gate runs no Reap, persists no change, and
increments no `attempts`. -/
theorem c1_counterexample :
    reapable 1000 c1Task = true ∧
    (gate_main c1In).stateWrites = [] ∧
    (gate_main c1In).decision ≠ .allow ∧
    (gate_main { c1In with stateJson := some (.obj [("tasks",
        .arr ((reapTasks 1000 [c1Task]).map Json.obj))]) }).decision =
      .allow := by
  refine ⟨by decide, rfl, ?_, ?_⟩
  · intro h
    revert h
    decide
  · decide

/-- C1 (amended): the Continuation Gate never runs Reap and never writes
the state document — no Gate invocation persists anything to
`harness-tasks.json`, so an expired in-progress lease keeps its status and
attempts across Gate invocations and still counts as blocking; the Reap
step runs (and is persisted before task selection) only inside Claim. -/
theorem c1_gate_never_persists :
    (∀ g : GateIn, (gate_main g).stateWrites = []) ∧
    (∀ st raw workerEnv host ls now writes res,
      tasksArr st = some raw →
      claim_main (Json.obj st) workerEnv host ls now = .ok (writes, res) →
      reapChanged now (raw.filterMap asObj) = true →
      writes.head? = some (Json.obj (setField st "tasks"
        (.arr ((reapTasks now (raw.filterMap asObj)).map Json.obj))))) := by
  constructor
  · intro g
    simp only [gate_main]
    repeat' split
    all_goals rfl
  · intro st raw workerEnv host ls now writes res hraw h hchanged
    simp only [claim_main, hraw, hchanged, if_true] at h
    split at h
    · injection h with h
      injection h with hws hres
      subst hws
      rfl
    · split at h
      · injection h with h
        injection h with hws hres
        subst hws
        rfl
      · injection h with h
        injection h with hws hres
        subst hws
        rfl

/-- C1 witness: the Claim part of `c1_gate_never_persists` on a document
whose only task has an expired lease, where Claim persists exactly the
reaped document (the task, past `max_attempts`, is no longer claimable). -/
theorem c1_gate_never_persists_witness :
    ([Json.obj (setField [("tasks", Json.arr [Json.obj c1Task])] "tasks"
        (.arr ((reapTasks 1000 [c1Task]).map Json.obj)))] : List Json).head? =
      some (Json.obj (setField [("tasks", Json.arr [Json.obj c1Task])] "tasks"
        (.arr ((reapTasks 1000 [c1Task]).map Json.obj)))) :=
  c1_gate_never_persists.2 [("tasks", Json.arr [Json.obj c1Task])]
    [Json.obj c1Task] "" "h:1" 60 1000
    [Json.obj (setField [("tasks", Json.arr [Json.obj c1Task])] "tasks"
      (.arr ((reapTasks 1000 [c1Task]).map Json.obj)))]
    .notClaimed rfl rfl (by decide)
